import Mathlib

/-!
Verification of the soil-profile proxy routines of OQ-SiteResponseToolkit
(`openquake/srtk/soilprofile/proxies.py`): `depth_weighted_average` and
`compute_site_kappa`.

The numeric arrays are embedded as `List ℚ` (exact arithmetic); the `for`
loop of `depth_weighted_average` with its early `break` is embedded as the
recursion `dwaLoop`, which returns the final `mean_value`, the final
`total_depth`, and whether the loop terminated through `break`.
-/

/-- The loop of `depth_weighted_average`:
`for tk, sp in zip(thickness[:-1], soil_prop[:-1]): ...`.
Arguments after the pair list are the running `mean_value` and
`total_depth`; the result is `(mean_value, total_depth, broke)` where
`broke` records whether the loop exited through `break`. -/
def dwaLoop (depth : ℚ) : List (ℚ × ℚ) → ℚ → ℚ → ℚ × ℚ × Bool
  | [], mean, td => (mean, td, false)
  | (tk, sp) :: rest, mean, td =>
    if tk + td < depth then
      dwaLoop depth rest (mean + tk * sp / depth) (td + tk)
    else
      (mean + (depth - td) * sp / depth, td, true)

/-- Embedding of `depth_weighted_average(thickness, soil_prop, depth)`: run the loop over
the zipped `thickness[:-1]`, `soil_prop[:-1]`, then, when the final
`total_depth` equals `sum(thickness[:-1])`, add the half-space term
`(depth - total_depth) * soil_prop[-1] / depth`. `soil_prop[-1]` is embedded
as `getLast?.getD 0`; every claim below constrains the lists to be
non-empty, where `getD`'s default is never used. -/
def depth_weighted_average (thickness soil_prop : List ℚ) (depth : ℚ) : ℚ :=
  let r := dwaLoop depth (thickness.dropLast.zip soil_prop.dropLast) 0 0
  if r.2.1 = thickness.dropLast.sum then
    r.1 + (depth - r.2.1) * (soil_prop.getLast?.getD 0) / depth
  else
    r.1

/-- Embedding of `compute_site_kappa(thickness, s_velocity, s_quality, depth=[])`.
The Python default `depth=[]` together with the guard `if not depth:` is
embedded as `Option ℚ`: `none` is the absent argument, and a supplied
`some 0` is falsy exactly like `[]`, so both resolve to `sum(thickness)`.
`layer_kappa = depth/(s_velocity*s_quality)` is numpy elementwise
arithmetic, embedded as `zipWith`. -/
def compute_site_kappa (thickness s_velocity s_quality : List ℚ)
    (depth : Option ℚ := none) : ℚ :=
  let d := match depth with
    | none => thickness.sum
    | some d0 => if d0 = 0 then thickness.sum else d0
  let layer_kappa := List.zipWith (fun v q => d / (v * q)) s_velocity s_quality
  depth_weighted_average thickness layer_kappa d

/-- Length of the intersection of the interval `[a, b]` with `[0, depth]`. -/
def intervalOverlap (a b depth : ℚ) : ℚ := max 0 (min depth b - max 0 a)

/-- The specification-side value: each finite layer `i` occupies the depth
interval from `sum(thickness[:i])` to `sum(thickness[:i+1])`, the half-space
layer occupies `[sum(thickness[:-1]), ∞)`, and each layer contributes the
length of its overlap with `[0, depth]` times its property over `depth`.
(The half-space overlap length is `max 0 (depth - sum(thickness[:-1]))`.) -/
def specAverage (thickness soil_prop : List ℚ) (depth : ℚ) : ℚ :=
  (∑ i ∈ Finset.range (thickness.length - 1),
    intervalOverlap ((thickness.take i).sum) ((thickness.take (i + 1)).sum) depth
      * soil_prop.getD i 0 / depth)
  + max 0 (depth - max 0 thickness.dropLast.sum) * soil_prop.getLast?.getD 0 / depth

/-- Whether the post-loop half-space branch of `depth_weighted_average` is
taken: `total_depth == np.sum(thickness[:-1])` after the loop. -/
def halfspaceTriggered (thickness soil_prop : List ℚ) (depth : ℚ) : Bool :=
  (dwaLoop depth (thickness.dropLast.zip soil_prop.dropLast) 0 0).2.1
    == thickness.dropLast.sum

/-- Idealized IEEE-754 double as used by numpy: a finite value (kept exact,
rounding and overflow are not modelled), positive or negative infinity, or
NaN. This carrier is used to settle the divide-by-zero behaviour of the
source, which the exact-rational carrier cannot express. -/
inductive PyFloat where
  | fin (q : ℚ)
  | inf
  | ninf
  | nan
deriving DecidableEq

/-- IEEE addition on `PyFloat` (opposite infinities give NaN). -/
def PyFloat.add : PyFloat → PyFloat → PyFloat
  | .fin a, .fin b => .fin (a + b)
  | .fin _, .inf => .inf
  | .fin _, .ninf => .ninf
  | .inf, .fin _ => .inf
  | .inf, .inf => .inf
  | .inf, .ninf => .nan
  | .ninf, .fin _ => .ninf
  | .ninf, .inf => .nan
  | .ninf, .ninf => .ninf
  | .nan, _ => .nan
  | _, .nan => .nan

/-- IEEE negation on `PyFloat`. -/
def PyFloat.neg : PyFloat → PyFloat
  | .fin a => .fin (-a)
  | .inf => .ninf
  | .ninf => .inf
  | .nan => .nan

/-- IEEE subtraction on `PyFloat`. -/
def PyFloat.sub (x y : PyFloat) : PyFloat := x.add y.neg

/-- IEEE multiplication on `PyFloat` (infinity times zero gives NaN). -/
def PyFloat.mul : PyFloat → PyFloat → PyFloat
  | .fin a, .fin b => .fin (a * b)
  | .fin a, .inf => if 0 < a then .inf else if a < 0 then .ninf else .nan
  | .fin a, .ninf => if 0 < a then .ninf else if a < 0 then .inf else .nan
  | .inf, .fin b => if 0 < b then .inf else if b < 0 then .ninf else .nan
  | .ninf, .fin b => if 0 < b then .ninf else if b < 0 then .inf else .nan
  | .inf, .inf => .inf
  | .inf, .ninf => .ninf
  | .ninf, .inf => .ninf
  | .ninf, .ninf => .inf
  | .nan, _ => .nan
  | _, .nan => .nan

/-- IEEE division on `PyFloat` as numpy performs it: a finite value divided
by zero gives signed infinity (or NaN for `0/0`) together with a warning,
never a raised exception. Signed zero is not modelled (the zero here is
`+0`). -/
def PyFloat.div : PyFloat → PyFloat → PyFloat
  | .fin a, .fin b =>
    if b = 0 then (if 0 < a then .inf else if a < 0 then .ninf else .nan)
    else .fin (a / b)
  | .fin _, .inf => .fin 0
  | .fin _, .ninf => .fin 0
  | .inf, .fin b => if 0 ≤ b then .inf else .ninf
  | .ninf, .fin b => if 0 ≤ b then .ninf else .inf
  | .inf, .inf => .nan
  | .inf, .ninf => .nan
  | .ninf, .inf => .nan
  | .ninf, .ninf => .nan
  | .nan, _ => .nan
  | _, .nan => .nan

/-- IEEE `<` on `PyFloat` (every comparison involving NaN is false). -/
def PyFloat.ltb : PyFloat → PyFloat → Bool
  | .fin a, .fin b => decide (a < b)
  | .fin _, .inf => true
  | .fin _, .ninf => false
  | .inf, .fin _ => false
  | .inf, .inf => false
  | .inf, .ninf => false
  | .ninf, .fin _ => true
  | .ninf, .inf => true
  | .ninf, .ninf => false
  | .nan, _ => false
  | _, .nan => false

/-- IEEE `==` on `PyFloat` (`nan == nan` is false). -/
def PyFloat.eqb : PyFloat → PyFloat → Bool
  | .fin a, .fin b => a == b
  | .inf, .inf => true
  | .ninf, .ninf => true
  | _, _ => false

/-- Whether a `PyFloat` is finite (neither infinite nor NaN). -/
def PyFloat.isFinite : PyFloat → Bool
  | .fin _ => true
  | _ => false

/-- Embedding of `numpy.sum` on `PyFloat` values (0 for the empty list). -/
def PyFloat.listSum (l : List PyFloat) : PyFloat := l.foldl PyFloat.add (.fin 0)

/-- The loop of `depth_weighted_average` over the `PyFloat` carrier,
identical in structure to `dwaLoop`. -/
def dwaLoopF (depth : PyFloat) :
    List (PyFloat × PyFloat) → PyFloat → PyFloat → PyFloat × PyFloat × Bool
  | [], mean, td => (mean, td, false)
  | (tk, sp) :: rest, mean, td =>
    if (tk.add td).ltb depth then
      dwaLoopF depth rest (mean.add ((tk.mul sp).div depth)) (td.add tk)
    else
      (mean.add (((depth.sub td).mul sp).div depth), td, true)

/-- Embedding of `depth_weighted_average` over the `PyFloat` carrier, identical in
structure to `depth_weighted_average`; the guard uses IEEE `==`. -/
def depth_weighted_averageF (thickness soil_prop : List PyFloat)
    (depth : PyFloat) : PyFloat :=
  let r := dwaLoopF depth (thickness.dropLast.zip soil_prop.dropLast)
    (.fin 0) (.fin 0)
  if r.2.1.eqb (PyFloat.listSum thickness.dropLast) then
    r.1.add (((depth.sub r.2.1).mul (soil_prop.getLast?.getD (.fin 0))).div depth)
  else
    r.1

/-- Specification-side running sum of overlap contributions of a list of
(thickness, property) pairs whose first interval starts at offset `td`. -/
def ovlSum (depth : ℚ) : List (ℚ × ℚ) → ℚ → ℚ
  | [], _ => 0
  | (tk, sp) :: rest, td =>
    intervalOverlap td (td + tk) depth * sp / depth + ovlSum depth rest (td + tk)

lemma ovlSum_of_le (depth : ℚ) (pairs : List (ℚ × ℚ)) (td : ℚ)
    (hle : depth ≤ td) (h0 : 0 ≤ td) (hnn : ∀ x ∈ pairs, 0 ≤ x.1) :
    ovlSum depth pairs td = 0 := by
  induction pairs generalizing td with
  | nil => rfl
  | cons x rest ih =>
    obtain ⟨tk, sp⟩ := x
    have htk : 0 ≤ tk := hnn (tk, sp) (by simp)
    have h1 : intervalOverlap td (td + tk) depth = 0 := by
      have hmin : min depth (td + tk) = depth := min_eq_left (by linarith)
      have hmax : max 0 td = td := max_eq_right h0
      simp only [intervalOverlap, hmin, hmax]
      exact max_eq_left (by linarith)
    rw [ovlSum, h1, ih (td + tk) (by linarith) (by linarith)
      (fun x hx => hnn x (List.mem_cons_of_mem _ hx))]
    ring

/-- The loop accumulates exactly the overlap-weighted contributions of the
pairs it is given, starting from offset `td`. -/
lemma dwaLoop_mean (depth : ℚ) (pairs : List (ℚ × ℚ)) (mean td : ℚ)
    (htd : 0 ≤ td) (hlt : td < depth) (hnn : ∀ x ∈ pairs, 0 ≤ x.1) :
    (dwaLoop depth pairs mean td).1 = mean + ovlSum depth pairs td := by
  induction pairs generalizing mean td with
  | nil => simp [dwaLoop, ovlSum]
  | cons x rest ih =>
    obtain ⟨tk, sp⟩ := x
    have htk : 0 ≤ tk := hnn (tk, sp) (by simp)
    have hmax : max 0 td = td := max_eq_right htd
    by_cases hbr : tk + td < depth
    · have hmin : min depth (td + tk) = td + tk := min_eq_right (by linarith)
      have hov : intervalOverlap td (td + tk) depth = tk := by
        simp only [intervalOverlap, hmin, hmax, add_sub_cancel_left]
        exact max_eq_right htk
      rw [dwaLoop, if_pos hbr, ovlSum, hov,
        ih (mean + tk * sp / depth) (td + tk) (by linarith) (by linarith)
          (fun x hx => hnn x (List.mem_cons_of_mem _ hx))]
      ring
    · have hmin : min depth (td + tk) = depth := min_eq_left (by linarith)
      have hov : intervalOverlap td (td + tk) depth = depth - td := by
        simp only [intervalOverlap, hmin, hmax]
        exact max_eq_right (by linarith)
      rw [dwaLoop, if_neg hbr, ovlSum, hov,
        ovlSum_of_le depth rest (td + tk) (by linarith) (by linarith)
          (fun x hx => hnn x (List.mem_cons_of_mem _ hx))]
      ring

/-- The loop's final `total_depth` and break status: either the loop ran to
completion, `total_depth` reached the full thickness sum and stayed below
`depth`; or it broke early, `total_depth` stopped strictly short of the sum
and `depth` is at most the sum. -/
lemma dwaLoop_state (depth : ℚ) (pairs : List (ℚ × ℚ)) (mean td : ℚ)
    (hlt : td < depth) (hnn : ∀ x ∈ pairs, 0 ≤ x.1) :
    ((dwaLoop depth pairs mean td).2.2 = false ∧
      (dwaLoop depth pairs mean td).2.1 = td + (pairs.map Prod.fst).sum ∧
      (dwaLoop depth pairs mean td).2.1 < depth) ∨
    ((dwaLoop depth pairs mean td).2.2 = true ∧
      (dwaLoop depth pairs mean td).2.1 < td + (pairs.map Prod.fst).sum ∧
      depth ≤ td + (pairs.map Prod.fst).sum) := by
  induction pairs generalizing mean td with
  | nil => exact Or.inl ⟨rfl, by simp [dwaLoop], by simpa [dwaLoop] using hlt⟩
  | cons x rest ih =>
    obtain ⟨tk, sp⟩ := x
    have hrest : 0 ≤ (rest.map Prod.fst).sum := by
      apply List.sum_nonneg
      intro a ha
      obtain ⟨y, hy, rfl⟩ := List.mem_map.mp ha
      exact hnn y (List.mem_cons_of_mem _ hy)
    by_cases hbr : tk + td < depth
    · have := ih (mean + tk * sp / depth) (td + tk) (by linarith)
        (fun x hx => hnn x (List.mem_cons_of_mem _ hx))
      rw [dwaLoop, if_pos hbr]
      rcases this with ⟨h1, h2, h3⟩ | ⟨h1, h2, h3⟩
      · exact Or.inl ⟨h1, by rw [h2]; simp; ring, h3⟩
      · refine Or.inr ⟨h1, ?_, ?_⟩
        · calc (dwaLoop depth rest (mean + tk * sp / depth) (td + tk)).2.1
              < td + tk + (rest.map Prod.fst).sum := h2
            _ = td + (((tk, sp) :: rest).map Prod.fst).sum := by simp; ring
        · calc depth ≤ td + tk + (rest.map Prod.fst).sum := h3
            _ = td + (((tk, sp) :: rest).map Prod.fst).sum := by simp; ring
    · rw [dwaLoop, if_neg hbr]
      refine Or.inr ⟨rfl, ?_, ?_⟩
      · show td < td + (((tk, sp) :: rest).map Prod.fst).sum
        simp only [List.map_cons, List.sum_cons]
        have : depth ≤ tk + td := le_of_not_lt hbr
        linarith
      · show depth ≤ td + (((tk, sp) :: rest).map Prod.fst).sum
        simp only [List.map_cons, List.sum_cons]
        have : depth ≤ tk + td := le_of_not_lt hbr
        linarith

/-- The running overlap sum over zipped lists, re-indexed as a `Finset.range`
sum with interval endpoints given by prefix sums of the thickness list. -/
lemma ovlSum_eq_finset (depth : ℚ) (ts ps : List ℚ) (hlen : ts.length = ps.length)
    (td : ℚ) :
    ovlSum depth (ts.zip ps) td =
      ∑ i ∈ Finset.range ts.length,
        intervalOverlap (td + (ts.take i).sum) (td + (ts.take (i + 1)).sum) depth
          * ps.getD i 0 / depth := by
  induction ts generalizing ps td with
  | nil => simp [ovlSum]
  | cons t ts ih =>
    cases ps with
    | nil => exact absurd hlen (by simp)
    | cons p ps =>
      have hlen' : ts.length = ps.length := by simpa using hlen
      rw [List.zip_cons_cons, ovlSum, ih ps hlen' (td + t)]
      rw [show ((t :: ts) : List ℚ).length = ts.length + 1 from by simp,
        Finset.sum_range_succ', add_comm]
      congr 1
      · refine Finset.sum_congr rfl fun i _ => ?_
        have h1 : ((t :: ts) : List ℚ).take (i + 1) = t :: ts.take i := rfl
        have h2 : ((t :: ts) : List ℚ).take (i + 1 + 1) = t :: ts.take (i + 1) := rfl
        rw [h1, h2, List.getD_cons_succ, List.sum_cons, List.sum_cons,
          ← add_assoc, ← add_assoc]
      · simp [intervalOverlap]

/-- Restatement of `depth_weighted_average` with the `let` unfolded. -/
lemma dwa_unfold (thickness soil_prop : List ℚ) (depth : ℚ) :
    depth_weighted_average thickness soil_prop depth =
      if (dwaLoop depth (thickness.dropLast.zip soil_prop.dropLast) 0 0).2.1
          = thickness.dropLast.sum then
        (dwaLoop depth (thickness.dropLast.zip soil_prop.dropLast) 0 0).1
          + (depth - (dwaLoop depth (thickness.dropLast.zip soil_prop.dropLast) 0 0).2.1)
            * (soil_prop.getLast?.getD 0) / depth
      else
        (dwaLoop depth (thickness.dropLast.zip soil_prop.dropLast) 0 0).1 := rfl

/-- Claim C1: for equal-length lists of length ≥ 1 with non-negative thicknesses
and positive depth, `depth_weighted_average` equals the sum over all layers
of (overlap of the layer's depth interval with `[0, depth]`) × property /
depth, the last layer being the half-space `[sum(thickness[:-1]), ∞)`. -/
theorem depth_weighted_average_is_overlap_average
    (thickness soil_prop : List ℚ) (depth : ℚ)
    (hlen : thickness.length = soil_prop.length)
    (hone : 1 ≤ thickness.length)
    (hnn : ∀ t ∈ thickness, 0 ≤ t)
    (hd : 0 < depth) :
    depth_weighted_average thickness soil_prop depth
      = specAverage thickness soil_prop depth := by
  have hlen' : thickness.dropLast.length = soil_prop.dropLast.length := by
    rw [List.length_dropLast, List.length_dropLast, hlen]
  have hnnz : ∀ x ∈ thickness.dropLast.zip soil_prop.dropLast, 0 ≤ x.1 := by
    intro x hx
    exact hnn x.1 (List.dropLast_subset thickness (List.of_mem_zip hx).1)
  have hsum_nn : 0 ≤ thickness.dropLast.sum :=
    List.sum_nonneg fun x hx => hnn x (List.dropLast_subset thickness hx)
  have hmean := dwaLoop_mean depth (thickness.dropLast.zip soil_prop.dropLast)
    0 0 le_rfl hd hnnz
  have hmapfst : ((thickness.dropLast.zip soil_prop.dropLast).map Prod.fst).sum
      = thickness.dropLast.sum := by
    rw [List.map_fst_zip _ _ (le_of_eq hlen')]
  have hfin : ovlSum depth (thickness.dropLast.zip soil_prop.dropLast) 0 =
      ∑ i ∈ Finset.range (thickness.length - 1),
        intervalOverlap ((thickness.take i).sum) ((thickness.take (i + 1)).sum) depth
          * soil_prop.getD i 0 / depth := by
    rw [ovlSum_eq_finset depth _ _ hlen' 0, List.length_dropLast]
    refine Finset.sum_congr rfl fun i hi => ?_
    have hi' : i < thickness.length - 1 := Finset.mem_range.mp hi
    have e1 : thickness.dropLast.take i = thickness.take i := by
      rw [List.dropLast_eq_take, List.take_take, Nat.min_eq_left (by omega)]
    have e2 : thickness.dropLast.take (i + 1) = thickness.take (i + 1) := by
      rw [List.dropLast_eq_take, List.take_take, Nat.min_eq_left (by omega)]
    have e3 : soil_prop.dropLast.getD i 0 = soil_prop.getD i 0 := by
      rw [List.getD_eq_getElem?_getD, List.getD_eq_getElem?_getD,
        List.dropLast_eq_take, List.getElem?_take_of_lt (by omega)]
    rw [e1, e2, e3, zero_add, zero_add]
  rcases dwaLoop_state depth (thickness.dropLast.zip soil_prop.dropLast) 0 0 hd hnnz
    with ⟨_, hteq, htlt⟩ | ⟨_, htlt2, htge⟩
  · rw [hmapfst, zero_add] at hteq
    rw [hteq] at htlt
    rw [dwa_unfold, if_pos hteq, hmean, zero_add, hfin, hteq, specAverage]
    have hhs : max 0 (depth - max 0 thickness.dropLast.sum)
        = depth - thickness.dropLast.sum := by
      rw [max_eq_right hsum_nn]
      exact max_eq_right (by linarith)
    rw [hhs]
  · rw [hmapfst, zero_add] at htlt2 htge
    rw [dwa_unfold, if_neg (ne_of_lt htlt2), hmean, zero_add, hfin, specAverage]
    have hhs : max 0 (depth - max 0 thickness.dropLast.sum) = 0 := by
      rw [max_eq_right hsum_nn]
      exact max_eq_left (by linarith)
    rw [hhs]
    ring

/-- Closed witness for C1's theorem at `thickness = [5, 0]`,
`soil_prop = [100, 200]`, `depth = 10`. -/
theorem depth_weighted_average_is_overlap_average_witness :
    depth_weighted_average [5, 0] [100, 200] 10 = specAverage [5, 0] [100, 200] 10 :=
  depth_weighted_average_is_overlap_average [5, 0] [100, 200] 10 (by simp)
    (by simp) (by norm_num) (by norm_num)

/-- Claim C10: with non-negative thicknesses and positive depth, the
post-loop guard `total_depth == sum(thickness[:-1])` holds iff
`sum(thickness[:-1]) < depth`; and after an early `break`, `total_depth`
is strictly below `sum(thickness[:-1])`, so the half-space term is never
added following a break. -/
theorem dwa_guard_iff_depth_beyond_layers
    (thickness soil_prop : List ℚ) (depth : ℚ)
    (hlen : thickness.length = soil_prop.length)
    (hnn : ∀ t ∈ thickness, 0 ≤ t) (hd : 0 < depth) :
    ((dwaLoop depth (thickness.dropLast.zip soil_prop.dropLast) 0 0).2.1
        = thickness.dropLast.sum ↔ thickness.dropLast.sum < depth)
    ∧ ((dwaLoop depth (thickness.dropLast.zip soil_prop.dropLast) 0 0).2.2 = true →
        (dwaLoop depth (thickness.dropLast.zip soil_prop.dropLast) 0 0).2.1
          < thickness.dropLast.sum) := by
  have hlen' : thickness.dropLast.length = soil_prop.dropLast.length := by
    rw [List.length_dropLast, List.length_dropLast, hlen]
  have hnnz : ∀ x ∈ thickness.dropLast.zip soil_prop.dropLast, 0 ≤ x.1 := by
    intro x hx
    exact hnn x.1 (List.dropLast_subset thickness (List.of_mem_zip hx).1)
  have hmapfst : ((thickness.dropLast.zip soil_prop.dropLast).map Prod.fst).sum
      = thickness.dropLast.sum := by
    rw [List.map_fst_zip _ _ (le_of_eq hlen')]
  rcases dwaLoop_state depth (thickness.dropLast.zip soil_prop.dropLast) 0 0 hd hnnz
    with ⟨hb, hteq, htlt⟩ | ⟨hb, htlt2, htge⟩
  · rw [hmapfst, zero_add] at hteq
    refine ⟨⟨fun _ => ?_, fun _ => hteq⟩, fun habs => ?_⟩
    · rw [hteq] at htlt; exact htlt
    · rw [hb] at habs; cases habs
  · rw [hmapfst, zero_add] at htlt2 htge
    exact ⟨⟨fun h => absurd h (ne_of_lt htlt2), fun h => absurd htge (not_le.mpr h)⟩,
      fun _ => htlt2⟩

/-- Closed witness for C10's theorem at `thickness = [1, 0]`,
`soil_prop = [5, 6]`, `depth = 2`. -/
theorem dwa_guard_iff_depth_beyond_layers_witness :
    ((dwaLoop 2 (([1, 0] : List ℚ).dropLast.zip ([5, 6] : List ℚ).dropLast) 0 0).2.1
        = ([1, 0] : List ℚ).dropLast.sum ↔ ([1, 0] : List ℚ).dropLast.sum < 2)
    ∧ ((dwaLoop 2 (([1, 0] : List ℚ).dropLast.zip ([5, 6] : List ℚ).dropLast) 0 0).2.2
          = true →
        (dwaLoop 2 (([1, 0] : List ℚ).dropLast.zip ([5, 6] : List ℚ).dropLast) 0 0).2.1
          < ([1, 0] : List ℚ).dropLast.sum) :=
  dwa_guard_iff_depth_beyond_layers [1, 0] [5, 6] 2 (by simp)
    (by norm_num) (by norm_num)

/-- Claim C2, counterexample: at `thickness = [1, 1]`, `soil_prop = [2, 3]`
(equal length 2, positive thickness entries) and
`depth = sum(thickness[:-1]) = 1`, the half-space branch is NOT taken:
the loop breaks at the last finite layer because the strict `<` fails. -/
theorem dwa_boundary_depth_cex :
    halfspaceTriggered [1, 1] [2, 3] (([1, 1] : List ℚ).dropLast.sum) = false := by
  norm_num [halfspaceTriggered, dwaLoop]

/-- Claim C2 as amended: for equal-length lists of length ≥ 2 with all
thickness entries positive, calling `depth_weighted_average` with depth
exactly `sum(thickness[:-1])` makes the loop break early (the strict `<`
fails at the last finite layer), so the half-space contribution branch is
NOT triggered and no half-space term is added. -/
theorem dwa_boundary_depth_no_halfspace
    (thickness soil_prop : List ℚ)
    (htwo : 2 ≤ thickness.length)
    (hlen : thickness.length = soil_prop.length)
    (hpos : ∀ t ∈ thickness, 0 < t) :
    halfspaceTriggered thickness soil_prop thickness.dropLast.sum = false := by
  have hne : thickness.dropLast ≠ [] := by
    have : 0 < thickness.dropLast.length := by
      rw [List.length_dropLast]; omega
    exact List.ne_nil_of_length_pos this
  have hd : 0 < thickness.dropLast.sum :=
    List.sum_pos _ (fun x hx => hpos x (List.dropLast_subset thickness hx)) hne
  have hlen' : thickness.dropLast.length = soil_prop.dropLast.length := by
    rw [List.length_dropLast, List.length_dropLast, hlen]
  have hnnz : ∀ x ∈ thickness.dropLast.zip soil_prop.dropLast, 0 ≤ x.1 := by
    intro x hx
    exact le_of_lt (hpos x.1 (List.dropLast_subset thickness (List.of_mem_zip hx).1))
  have hmapfst : ((thickness.dropLast.zip soil_prop.dropLast).map Prod.fst).sum
      = thickness.dropLast.sum := by
    rw [List.map_fst_zip _ _ (le_of_eq hlen')]
  rcases dwaLoop_state thickness.dropLast.sum
      (thickness.dropLast.zip soil_prop.dropLast) 0 0 hd hnnz
    with ⟨_, hteq, htlt⟩ | ⟨_, htlt2, _⟩
  · rw [hmapfst, zero_add] at hteq
    rw [hteq] at htlt
    exact absurd htlt (lt_irrefl _)
  · rw [hmapfst, zero_add] at htlt2
    exact beq_eq_false_iff_ne.mpr (ne_of_lt htlt2)

/-- Closed witness for C2's amended theorem at `thickness = [1, 1]`,
`soil_prop = [2, 3]`. -/
theorem dwa_boundary_depth_no_halfspace_witness :
    halfspaceTriggered [1, 1] [2, 3] (([1, 1] : List ℚ).dropLast.sum) = false :=
  dwa_boundary_depth_no_halfspace [1, 1] [2, 3] (by simp) (by simp) (by norm_num)

/-- Claim C3, counterexample: `compute_site_kappa([10,0], [200,300], [20,30])`
with the default depth does NOT return `10/(300*30) = 1/900`. -/
theorem compute_site_kappa_example_cex :
    compute_site_kappa [10, 0] [200, 300] [20, 30] none ≠ 1 / 900 := by
  norm_num [compute_site_kappa, depth_weighted_average, dwaLoop]

/-- Claim C3 as amended:
`compute_site_kappa(thickness=[10,0], s_velocity=[200,300], s_quality=[20,30])`
with no depth argument uses the default `depth = 10` and returns
`10 * (10/(200*20)) / 10 = 10/(200*20) = 1/400`: at `depth = 10` the strict
`<` fails at layer 0, which therefore contributes in full through the break
branch, and the half-space contributes nothing. -/
theorem compute_site_kappa_example :
    compute_site_kappa [10, 0] [200, 300] [20, 30] none = 1 / 400 := by
  norm_num [compute_site_kappa, depth_weighted_average, dwaLoop]

/-- Claim C4: `depth_weighted_average([5,0], [100,200], 10) = 150`:
layer 0 contributes `5*100/10 = 50` and advances `total_depth` to 5, then
since `total_depth = sum(thickness[:-1]) = 5` the half-space contributes
`(10-5)*200/10 = 100`. -/
theorem dwa_two_layer_example :
    depth_weighted_average [5, 0] [100, 200] 10 = 150 := by
  norm_num [depth_weighted_average, dwaLoop]

/-- Claim C5: for single-element lists and any positive depth,
`depth_weighted_average` returns exactly `soil_prop[-1]`: the loop is empty,
`total_depth` stays 0 which equals the empty sum, and the half-space term
`(depth - 0) * soil_prop[-1] / depth` is added. -/
theorem dwa_single_layer (t p d : ℚ) (hd : 0 < d) :
    depth_weighted_average [t] [p] d = p := by
  rw [dwa_unfold]
  simp only [List.dropLast_single, List.zip_nil_left, dwaLoop, List.sum_nil,
    if_pos rfl, List.getLast?_singleton, Option.getD_some, zero_add, sub_zero]
  field_simp

/-- Closed witness for C5's theorem at `t = 7`, `p = 42`, `d = 3`. -/
theorem dwa_single_layer_witness :
    depth_weighted_average [7] [42] 3 = 42 :=
  dwa_single_layer 7 42 3 (by norm_num)

/-- Claim C6: for equal-length profiles with non-zero velocities and
qualities and a supplied positive depth, `compute_site_kappa` equals
`depth_weighted_average` applied to the elementwise `layer_kappa`
`depth / (s_velocity * s_quality)`, the same scalar depth in every
element and as the averaging depth. -/
theorem compute_site_kappa_decomposition
    (thickness s_velocity s_quality : List ℚ) (d : ℚ)
    (hlen1 : thickness.length = s_velocity.length)
    (hlen2 : s_velocity.length = s_quality.length)
    (hv : ∀ x ∈ s_velocity, x ≠ 0) (hq : ∀ x ∈ s_quality, x ≠ 0)
    (hd : 0 < d) :
    compute_site_kappa thickness s_velocity s_quality (some d)
      = depth_weighted_average thickness
          (List.zipWith (fun v q => d / (v * q)) s_velocity s_quality) d := by
  simp [compute_site_kappa, hd.ne']

/-- Closed witness for C6's theorem at `thickness = [1, 0]`,
`s_velocity = [2, 3]`, `s_quality = [4, 5]`, `d = 2`. -/
theorem compute_site_kappa_decomposition_witness :
    compute_site_kappa [1, 0] [2, 3] [4, 5] (some 2)
      = depth_weighted_average [1, 0]
          (List.zipWith (fun v q => (2 : ℚ) / (v * q)) [2, 3] [4, 5]) 2 :=
  compute_site_kappa_decomposition [1, 0] [2, 3] [4, 5] 2 (by simp) (by simp)
    (by norm_num) (by norm_num) (by norm_num)

/-- Claim C7: with no depth argument, `compute_site_kappa` averages down to
`sum(thickness)` over ALL entries (the half-space's included), i.e. it
returns the same value as an explicit `depth = sum(thickness)`. -/
theorem compute_site_kappa_default_is_total_sum
    (thickness s_velocity s_quality : List ℚ) :
    compute_site_kappa thickness s_velocity s_quality none
      = compute_site_kappa thickness s_velocity s_quality (some thickness.sum) := by
  by_cases h : thickness.sum = 0 <;> simp [compute_site_kappa, h]

/-- Claim C9: an explicitly supplied `depth = 0` is falsy under the guard
`if not depth:`, so the call behaves identically to a call with no depth
argument: the 0 is replaced by `sum(thickness)` and never reaches the
division `depth / (s_velocity * s_quality)`. -/
theorem compute_site_kappa_zero_depth_is_default
    (thickness s_velocity s_quality : List ℚ) :
    compute_site_kappa thickness s_velocity s_quality (some 0)
      = compute_site_kappa thickness s_velocity s_quality none := by
  simp [compute_site_kappa]

lemma PyFloat.add_not_finite_left (x y : PyFloat) (h : x.isFinite = false) :
    (x.add y).isFinite = false := by
  cases x <;> cases y <;> simp_all [PyFloat.add, PyFloat.isFinite]

lemma PyFloat.add_not_finite_right (x y : PyFloat) (h : y.isFinite = false) :
    (x.add y).isFinite = false := by
  cases x <;> cases y <;> simp_all [PyFloat.add, PyFloat.isFinite]

lemma PyFloat.fin_mul_fin (a b : ℚ) :
    (PyFloat.fin a).mul (.fin b) = .fin (a * b) := rfl

lemma PyFloat.fin_sub_fin (a b : ℚ) :
    (PyFloat.fin a).sub (.fin b) = .fin (a - b) := by
  simp [PyFloat.sub, PyFloat.neg, PyFloat.add, sub_eq_add_neg]

lemma PyFloat.fin_div_zero_not_finite (a : ℚ) :
    ((PyFloat.fin a).div (.fin 0)).isFinite = false := by
  by_cases h1 : 0 < a
  · simp [PyFloat.div, PyFloat.isFinite, h1]
  · by_cases h2 : a < 0 <;> simp [PyFloat.div, PyFloat.isFinite, h1, h2]

lemma PyFloat.exists_of_finite (x : PyFloat) (h : x.isFinite = true) :
    ∃ q : ℚ, x = .fin q := by
  cases x with
  | fin q => exact ⟨q, rfl⟩
  | inf => simp [PyFloat.isFinite] at h
  | ninf => simp [PyFloat.isFinite] at h
  | nan => simp [PyFloat.isFinite] at h

/-- A non-finite running `mean_value` stays non-finite through the loop. -/
lemma dwaLoopF_mean_absorb (depth : PyFloat) (pairs : List (PyFloat × PyFloat))
    (mean td : PyFloat) (h : mean.isFinite = false) :
    ((dwaLoopF depth pairs mean td).1).isFinite = false := by
  induction pairs generalizing mean td with
  | nil => exact h
  | cons x rest ih =>
    obtain ⟨tk, sp⟩ := x
    rw [dwaLoopF]
    split
    · exact ih _ _ (PyFloat.add_not_finite_left _ _ h)
    · exact PyFloat.add_not_finite_left _ _ h

/-- With `depth = 0`, every term the loop adds is a division by zero, so as
soon as the loop runs at least one iteration the accumulated `mean_value`
is non-finite; the running `total_depth` stays finite throughout. -/
lemma dwaLoopF_zero_depth (pairs : List (PyFloat × PyFloat)) (mean td : PyFloat)
    (hfin : ∀ x ∈ pairs, x.1.isFinite = true ∧ x.2.isFinite = true)
    (htd : td.isFinite = true) :
    (pairs ≠ [] → ((dwaLoopF (.fin 0) pairs mean td).1).isFinite = false)
    ∧ ((dwaLoopF (.fin 0) pairs mean td).2.1).isFinite = true := by
  induction pairs generalizing mean td with
  | nil => exact ⟨fun h => absurd rfl h, htd⟩
  | cons x rest ih =>
    obtain ⟨tk, sp⟩ := x
    obtain ⟨htk, hsp⟩ := hfin (tk, sp) (by simp)
    obtain ⟨a, rfl⟩ := PyFloat.exists_of_finite tk htk
    obtain ⟨b, rfl⟩ := PyFloat.exists_of_finite sp hsp
    obtain ⟨t, rfl⟩ := PyFloat.exists_of_finite td htd
    rw [dwaLoopF]
    split
    · have hterm : (((PyFloat.fin a).mul (.fin b)).div (.fin 0)).isFinite = false := by
        rw [PyFloat.fin_mul_fin]
        exact PyFloat.fin_div_zero_not_finite _
      have hrest := ih (mean.add (((PyFloat.fin a).mul (.fin b)).div (.fin 0)))
        ((PyFloat.fin t).add (.fin a))
        (fun x hx => hfin x (List.mem_cons_of_mem _ hx)) rfl
      exact ⟨fun _ => dwaLoopF_mean_absorb _ _ _ _
        (PyFloat.add_not_finite_right _ _ hterm), hrest.2⟩
    · refine ⟨fun _ => ?_, rfl⟩
      have hterm : ((((PyFloat.fin 0).sub (.fin t)).mul (.fin b)).div
          (.fin 0)).isFinite = false := by
        rw [PyFloat.fin_sub_fin, PyFloat.fin_mul_fin]
        exact PyFloat.fin_div_zero_not_finite _
      exact PyFloat.add_not_finite_right _ _ hterm

/-- Claim C8: over the IEEE carrier, `depth_weighted_average` called with
`depth = 0` on equal-length lists of finite values (length ≥ 1) raises no
error — the embedding is a total function — and every division by `depth`
yields a divide-by-zero result, so the value it returns to the caller is
non-finite (±infinity or NaN). -/
theorem dwa_zero_depth_returns_nonfinite
    (thickness soil_prop : List PyFloat)
    (hlen : thickness.length = soil_prop.length)
    (hone : 1 ≤ thickness.length)
    (hth : ∀ x ∈ thickness, x.isFinite = true)
    (hsp : ∀ x ∈ soil_prop, x.isFinite = true) :
    (depth_weighted_averageF thickness soil_prop (.fin 0)).isFinite = false := by
  have hsplen : 1 ≤ soil_prop.length := hlen ▸ hone
  have hspne : soil_prop ≠ [] := List.ne_nil_of_length_pos (by omega)
  have hlast : soil_prop.getLast?.getD (.fin 0) ∈ soil_prop := by
    rw [List.getLast?_eq_getLast _ hspne, Option.getD_some]
    exact List.getLast_mem hspne
  have hlastfin : (soil_prop.getLast?.getD (.fin 0)).isFinite = true :=
    hsp _ hlast
  obtain ⟨lq, hlq⟩ := PyFloat.exists_of_finite _ hlastfin
  rcases heq : thickness.dropLast.zip soil_prop.dropLast with _ | ⟨x, rest⟩
  · have hts : thickness.dropLast = [] := by
      have h1 : (thickness.dropLast.zip soil_prop.dropLast).length = 0 := by
        rw [heq]; rfl
      rw [List.length_zip, List.length_dropLast, List.length_dropLast, hlen,
        Nat.min_self] at h1
      have : thickness.dropLast.length = 0 := by
        rw [List.length_dropLast, hlen]; exact h1
      exact List.eq_nil_of_length_eq_zero this
    rw [depth_weighted_averageF, heq, hts, hlq]
    simp only [dwaLoopF, PyFloat.listSum, List.foldl_nil]
    norm_num [PyFloat.eqb, PyFloat.sub, PyFloat.neg, PyFloat.add, PyFloat.mul,
      PyFloat.div, PyFloat.isFinite]
  · have hfinz : ∀ y ∈ thickness.dropLast.zip soil_prop.dropLast,
        y.1.isFinite = true ∧ y.2.isFinite = true := by
      intro y hy
      constructor
      · exact hth y.1 (List.dropLast_subset thickness (List.of_mem_zip hy).1)
      · exact hsp y.2 (List.dropLast_subset soil_prop (List.of_mem_zip hy).2)
    have hmean := (dwaLoopF_zero_depth (thickness.dropLast.zip soil_prop.dropLast)
      (.fin 0) (.fin 0) hfinz rfl).1 (by rw [heq]; simp)
    rw [depth_weighted_averageF]
    split
    · exact PyFloat.add_not_finite_left _ _ hmean
    · exact hmean

/-- Closed witness for C8's theorem at `thickness = [1]`, `soil_prop = [2]`. -/
theorem dwa_zero_depth_returns_nonfinite_witness :
    (depth_weighted_averageF [.fin 1] [.fin 2] (.fin 0)).isFinite = false :=
  dwa_zero_depth_returns_nonfinite [.fin 1] [.fin 2] rfl (by norm_num)
    (by intro x hx; simp at hx; rw [hx]; rfl)
    (by intro x hx; simp at hx; rw [hx]; rfl)
